import Mathlib

/-!
Verification of the text-escaping engine of `internal/ansiext/ansi.go`
(`Escape` and `EscapePreservingANSI`).

Strings are modelled as lists of Unicode code points (`List Nat`),
matching the Go code's `[]rune` view of its input.
-/

/-- The DEL code point (`ansi.DEL` in the Go source); code points (Go
`rune`) are modelled as natural numbers. -/
def DEL : Nat := 0x7F

/-- The per-code-point substitution performed by the `switch` shared by
`Escape` and the ordinary path of `EscapePreservingANSI`:
control characters 0x00–0x1F map to `'␀' + r`, DEL maps to `'␡'`,
everything else passes through unchanged. -/
def pic (r : Nat) : Nat :=
  if r ≤ 0x1F then 0x2400 + r
  else if r = DEL then 0x2421
  else r

/-- `Escape` from `ansi.go`: apply the substitution to every code point. -/
def Escape (content : List Nat) : List Nat :=
  content.map pic

/-- The terminator test of the scanner: `(c >= 'A' && c <= 'Z') || (c >= 'a' && c <= 'z')`. -/
def isLetter (c : Nat) : Bool :=
  (0x41 ≤ c && c ≤ 0x5A) || (0x61 ≤ c && c ≤ 0x7A)

/-- The parameter-character test of the scanner:
`(c >= '0' && c <= '9') || c == ';' || c == '?'`. -/
def isParam (c : Nat) : Bool :=
  (0x30 ≤ c && c ≤ 0x39) || c == 0x3B || c == 0x3F

/-- The inner scanning loop of `EscapePreservingANSI`: starting at `j`,
advance while the current code point is a parameter character, and stop at
the first code point that is a letter (terminator), at the first code point
that is neither (invalid character), or at the end of the input.
Returns the position where the loop stops. -/
def scanSeq (runes : List Nat) (j : Nat) : Nat :=
  if h : j < runes.length then
    if isLetter (runes.get ⟨j, h⟩) then j
    else if isParam (runes.get ⟨j, h⟩) then scanSeq runes (j + 1)
    else j
  else j
termination_by runes.length - j
decreasing_by simp_wf; omega

theorem scanSeq_ge (runes : List Nat) (j : Nat) : j ≤ scanSeq runes j := by
  rw [scanSeq]
  split
  · split
    · exact Nat.le_refl j
    · split
      · have ih := scanSeq_ge runes (j + 1)
        omega
      · exact Nat.le_refl j
  · exact Nat.le_refl j
termination_by runes.length - j
decreasing_by simp_wf; omega

/-- The main loop of `EscapePreservingANSI`, with cursor `i` over `runes`.

* If `runes[i] = ESC` and `runes[i+1] = '['`, scan the sequence body with
  `scanSeq` from `i + 2`; if the scan stopped at a letter terminator `j`,
  emit `runes[i..j]` verbatim and continue from `j + 1`, otherwise emit
  `U+241B` and continue from `i + 1`.
* Otherwise apply the substitution `pic` and continue from `i + 1`. -/
def escLoop (runes : List Nat) (i : Nat) : List Nat :=
  if h : i < runes.length then
    if runes.get ⟨i, h⟩ = 0x1B ∧ i + 1 < runes.length ∧ runes.getD (i + 1) 0 = 0x5B then
      if scanSeq runes (i + 2) < runes.length ∧
          isLetter (runes.getD (scanSeq runes (i + 2)) 0) then
        (runes.drop i).take (scanSeq runes (i + 2) + 1 - i) ++
          escLoop runes (scanSeq runes (i + 2) + 1)
      else
        0x241B :: escLoop runes (i + 1)
    else
      pic (runes.get ⟨i, h⟩) :: escLoop runes (i + 1)
  else []
termination_by runes.length - i
decreasing_by
  · simp_wf
    have := scanSeq_ge runes (i + 2)
    omega
  · simp_wf; omega
  · simp_wf; omega

/-- `EscapePreservingANSI` from `ansi.go`. -/
def EscapePreservingANSI (content : List Nat) : List Nat :=
  escLoop content 0

/-- Concrete evaluation on the code points of `"\x1b[ba!d"`: since `'b'` is a
letter, `ESC [ b` is a well-formed CSI run (empty parameter run) and the
whole input passes through unchanged. -/
theorem escANSI_bad_example_eval :
    EscapePreservingANSI [0x1B, 0x5B, 0x62, 0x61, 0x21, 0x64] =
    [0x1B, 0x5B, 0x62, 0x61, 0x21, 0x64] := by
  simp [EscapePreservingANSI, escLoop, scanSeq, isLetter, isParam, pic]
  decide

theorem get_eq_getD (runes : List Nat) (k : Nat) (h : k < runes.length) :
    runes.get ⟨k, h⟩ = runes.getD k 0 := by
  rw [List.get_eq_getElem, List.getD_eq_getElem]

theorem getElem_eq_getD (runes : List Nat) (k : Nat) (h : k < runes.length) :
    runes[k] = runes.getD k 0 :=
  (List.getD_eq_getElem runes 0 h).symm

/-- A parameter character (digit, `;`, `?`) is never a letter. -/
theorem isParam_not_isLetter {c : Nat} (h : isParam c = true) : isLetter c = false := by
  simp only [isParam, isLetter] at *
  simp only [Bool.or_eq_true, Bool.and_eq_true, decide_eq_true_eq, beq_iff_eq] at h
  simp only [Bool.or_eq_false_iff, Bool.and_eq_false_iff, decide_eq_false_iff_not]
  omega

/-- If every code point from `a` up to (but excluding) `j` is a parameter
character and `j` holds a letter, the inner scanning loop started at `a`
stops exactly at `j`. -/
theorem scanSeq_stops (runes : List Nat) (a j : Nat)
    (haj : a ≤ j) (hj : j < runes.length)
    (hL : isLetter (runes.getD j 0) = true)
    (hP : ∀ k, a ≤ k → k < j → isParam (runes.getD k 0) = true) :
    scanSeq runes a = j := by
  rw [scanSeq]
  rcases Nat.lt_or_ge a j with hlt | hge
  · have ha : a < runes.length := Nat.lt_trans hlt hj
    have hpa : isParam runes[a] = true := by
      rw [getElem_eq_getD runes a ha]; exact hP a (Nat.le_refl a) hlt
    have hla : isLetter runes[a] = false := isParam_not_isLetter hpa
    have ih := scanSeq_stops runes (a + 1) j hlt hj hL
      (fun k hk1 hk2 => hP k (Nat.le_of_succ_le hk1) hk2)
    simp [dif_pos ha, hla, hpa, ih]
  · have haj' : a = j := Nat.le_antisymm haj hge
    subst haj'
    have hla : isLetter runes[a] = true := by
      rw [getElem_eq_getD runes a hj]; exact hL
    simp [dif_pos hj, hla]
termination_by j - a
decreasing_by omega

theorem escLoop_stop (runes : List Nat) (i : Nat) (h : runes.length ≤ i) :
    escLoop runes i = [] := by
  rw [escLoop, dif_neg (by omega)]

/-- Unfolding of `escLoop` on the well-formed-sequence path. -/
theorem escLoop_wf_step (runes : List Nat) (i : Nat)
    (h1 : i + 1 < runes.length)
    (h27 : runes.getD i 0 = 0x1B) (h91 : runes.getD (i + 1) 0 = 0x5B)
    (hj : scanSeq runes (i + 2) < runes.length)
    (hL : isLetter (runes.getD (scanSeq runes (i + 2)) 0) = true) :
    escLoop runes i =
      (runes.drop i).take (scanSeq runes (i + 2) + 1 - i) ++
        escLoop runes (scanSeq runes (i + 2) + 1) := by
  have hi : i < runes.length := by omega
  rw [escLoop, dif_pos hi, if_pos ⟨by rw [get_eq_getD]; exact h27, h1, h91⟩,
    if_pos ⟨hj, hL⟩]

/-- Unfolding of `escLoop` on the invalid/truncated-sequence path. -/
theorem escLoop_invalid_step (runes : List Nat) (i : Nat)
    (h1 : i + 1 < runes.length)
    (h27 : runes.getD i 0 = 0x1B) (h91 : runes.getD (i + 1) 0 = 0x5B)
    (hbad : ¬(scanSeq runes (i + 2) < runes.length ∧
      isLetter (runes.getD (scanSeq runes (i + 2)) 0) = true)) :
    escLoop runes i = 0x241B :: escLoop runes (i + 1) := by
  have hi : i < runes.length := by omega
  rw [escLoop, dif_pos hi, if_pos ⟨by rw [get_eq_getD]; exact h27, h1, h91⟩,
    if_neg hbad]

/-- Unfolding of `escLoop` on the ordinary (substitution) path. -/
theorem escLoop_ord_step (runes : List Nat) (i : Nat) (h : i < runes.length)
    (hno : ¬(runes.getD i 0 = 0x1B ∧ i + 1 < runes.length ∧
      runes.getD (i + 1) 0 = 0x5B)) :
    escLoop runes i = pic (runes.getD i 0) :: escLoop runes (i + 1) := by
  rw [escLoop, dif_pos h, if_neg (by rw [get_eq_getD]; exact hno), get_eq_getD]

/-- Every step of `escLoop` emits exactly as many code points as it consumes,
so the output has exactly the length of the unprocessed input. -/
theorem escLoop_length (runes : List Nat) (i : Nat) :
    (escLoop runes i).length = runes.length - i := by
  by_cases h : i < runes.length
  · by_cases hdet : runes.getD i 0 = 0x1B ∧ i + 1 < runes.length ∧
        runes.getD (i + 1) 0 = 0x5B
    · by_cases hwf : scanSeq runes (i + 2) < runes.length ∧
          isLetter (runes.getD (scanSeq runes (i + 2)) 0) = true
      · have hge := scanSeq_ge runes (i + 2)
        have ih := escLoop_length runes (scanSeq runes (i + 2) + 1)
        rw [escLoop_wf_step runes i hdet.2.1 hdet.1 hdet.2.2 hwf.1 hwf.2,
          List.length_append, List.length_take, List.length_drop, ih]
        have hj := hwf.1
        omega
      · have ih := escLoop_length runes (i + 1)
        rw [escLoop_invalid_step runes i hdet.2.1 hdet.1 hdet.2.2 hwf,
          List.length_cons, ih]
        omega
    · have ih := escLoop_length runes (i + 1)
      rw [escLoop_ord_step runes i h hdet, List.length_cons, ih]
      omega
  · rw [escLoop_stop runes i (by omega), List.length_nil]
    omega
termination_by runes.length - i
decreasing_by
  · omega
  · omega
  · omega

/-- With no ESC anywhere in the input, every step of `escLoop` takes the
ordinary substitution path, so it coincides with mapping `pic`. -/
theorem escLoop_no_esc (runes : List Nat) (i : Nat) (hs : 0x1B ∉ runes) :
    escLoop runes i = (runes.drop i).map pic := by
  by_cases h : i < runes.length
  · have hne : runes.getD i 0 ≠ 0x1B := by
      rw [← getElem_eq_getD runes i h]
      intro hc
      exact hs (hc ▸ List.getElem_mem h)
    rw [escLoop_ord_step runes i h (fun hc => hne hc.1),
      escLoop_no_esc runes (i + 1) hs,
      List.drop_eq_getElem_cons h, List.map_cons, getElem_eq_getD runes i h]
  · rw [escLoop_stop runes i (by omega), List.drop_eq_nil_of_le (by omega),
      List.map_nil]
termination_by runes.length - i
decreasing_by omega

/-- Fuel-indexed variant of the main loop: structurally recursive on `fuel`,
with body identical to `escLoop`; it is used to show that the loop
terminates within a number of iterations linear in the input length. -/
def escLoopF : Nat → List Nat → Nat → List Nat
  | 0, _, _ => []
  | fuel + 1, runes, i =>
    if h : i < runes.length then
      if runes.get ⟨i, h⟩ = 0x1B ∧ i + 1 < runes.length ∧
          runes.getD (i + 1) 0 = 0x5B then
        if scanSeq runes (i + 2) < runes.length ∧
            isLetter (runes.getD (scanSeq runes (i + 2)) 0) then
          (runes.drop i).take (scanSeq runes (i + 2) + 1 - i) ++
            escLoopF fuel runes (scanSeq runes (i + 2) + 1)
        else
          0x241B :: escLoopF fuel runes (i + 1)
      else
        pic (runes.get ⟨i, h⟩) :: escLoopF fuel runes (i + 1)
    else []

/-- Any fuel bound covering the remaining input length makes the fuel-indexed
loop agree with `escLoop`: the loop needs at most one iteration per
remaining code point. -/
theorem escLoopF_eq (fuel : Nat) : ∀ (runes : List Nat) (i : Nat),
    runes.length ≤ i + fuel → escLoopF fuel runes i = escLoop runes i := by
  induction fuel with
  | zero =>
    intro runes i hf
    rw [escLoop_stop runes i (by omega)]
    rfl
  | succ fuel ih =>
    intro runes i hf
    by_cases h : i < runes.length
    · by_cases hdet : runes.getD i 0 = 0x1B ∧ i + 1 < runes.length ∧
          runes.getD (i + 1) 0 = 0x5B
      · by_cases hwf : scanSeq runes (i + 2) < runes.length ∧
            isLetter (runes.getD (scanSeq runes (i + 2)) 0) = true
        · have hge := scanSeq_ge runes (i + 2)
          rw [escLoop_wf_step runes i hdet.2.1 hdet.1 hdet.2.2 hwf.1 hwf.2]
          show (if h : i < runes.length then _ else _) = _
          rw [dif_pos h, if_pos (by rw [get_eq_getD]; exact hdet), if_pos hwf,
            ih runes (scanSeq runes (i + 2) + 1) (by omega)]
        · rw [escLoop_invalid_step runes i hdet.2.1 hdet.1 hdet.2.2 hwf]
          show (if h : i < runes.length then _ else _) = _
          rw [dif_pos h, if_pos (by rw [get_eq_getD]; exact hdet), if_neg hwf,
            ih runes (i + 1) (by omega)]
      · rw [escLoop_ord_step runes i h hdet]
        show (if h : i < runes.length then _ else _) = _
        rw [dif_pos h, if_neg (by rw [get_eq_getD]; exact hdet),
          ih runes (i + 1) (by omega), get_eq_getD]
    · rw [escLoop_stop runes i (by omega)]
      show (if h : i < runes.length then _ else _) = _
      rw [dif_neg h]

/-- The verbatim-emission loop `for k := i; k <= j; k++ { sb.WriteRune(runes[k]) }`
with the index access `runes[k]` made fallible: `none` models a Go
index-out-of-range panic. -/
def takeRunOpt (runes : List Nat) (k j : Nat) : Option (List Nat) :=
  if _hk : k ≤ j then
    match runes.get? k with
    | none => none
    | some c =>
      match takeRunOpt runes (k + 1) j with
      | none => none
      | some rest => some (c :: rest)
  else some []
termination_by j + 1 - k
decreasing_by simp_wf; omega

/-- `escLoop` with every `runes[...]` access made fallible (`none` models a
Go index-out-of-range panic); proving it never returns `none` shows the
error branch is unreachable. -/
def escLoopOpt (runes : List Nat) (i : Nat) : Option (List Nat) :=
  if _h : i < runes.length then
    match runes.get? i with
    | none => none
    | some r =>
      if r = 0x1B ∧ i + 1 < runes.length ∧ runes.getD (i + 1) 0 = 0x5B then
        if scanSeq runes (i + 2) < runes.length ∧
            isLetter (runes.getD (scanSeq runes (i + 2)) 0) then
          match takeRunOpt runes i (scanSeq runes (i + 2)),
              escLoopOpt runes (scanSeq runes (i + 2) + 1) with
          | some run, some rest => some (run ++ rest)
          | _, _ => none
        else
          Option.map (fun rest => 0x241B :: rest) (escLoopOpt runes (i + 1))
      else
        Option.map (fun rest => pic r :: rest) (escLoopOpt runes (i + 1))
  else some []
termination_by runes.length - i
decreasing_by
  · simp_wf
    have := scanSeq_ge runes (i + 2)
    omega
  · simp_wf; omega
  · simp_wf; omega

/-- When the run's right end is in bounds, the fallible verbatim-emission
loop succeeds and emits exactly the slice `runes[k..j]`. -/
theorem takeRunOpt_eq (runes : List Nat) (k j : Nat) (hj : j < runes.length) :
    takeRunOpt runes k j = some ((runes.drop k).take (j + 1 - k)) := by
  by_cases hk : k ≤ j
  · have hkl : k < runes.length := by omega
    have ih := takeRunOpt_eq runes (k + 1) j hj
    rw [takeRunOpt, dif_pos hk, List.get?_eq_get hkl, ih]
    show some _ = _
    rw [List.drop_eq_getElem_cons hkl]
    have harith : j + 1 - k = (j + 1 - (k + 1)) + 1 := by omega
    rw [harith, List.take_succ_cons, List.get_eq_getElem]
  · rw [takeRunOpt, dif_neg hk]
    have harith : j + 1 - k = 0 := by omega
    rw [harith, List.take_zero]
termination_by j + 1 - k
decreasing_by omega

/-- The fallible mirror of the scanner never hits an out-of-range access:
it always succeeds and agrees with `escLoop`. -/
theorem escLoopOpt_eq (runes : List Nat) (i : Nat) :
    escLoopOpt runes i = some (escLoop runes i) := by
  by_cases h : i < runes.length
  · by_cases hdet : runes.getD i 0 = 0x1B ∧ i + 1 < runes.length ∧
        runes.getD (i + 1) 0 = 0x5B
    · by_cases hwf : scanSeq runes (i + 2) < runes.length ∧
          isLetter (runes.getD (scanSeq runes (i + 2)) 0) = true
      · have hge := scanSeq_ge runes (i + 2)
        have ih := escLoopOpt_eq runes (scanSeq runes (i + 2) + 1)
        rw [escLoop_wf_step runes i hdet.2.1 hdet.1 hdet.2.2 hwf.1 hwf.2]
        rw [escLoopOpt, dif_pos h, List.get?_eq_get h]
        show (if _ ∧ _ ∧ _ then _ else _) = _
        rw [if_pos (by rw [get_eq_getD]; exact hdet), if_pos hwf,
          takeRunOpt_eq runes i (scanSeq runes (i + 2)) hwf.1, ih]
      · have ih := escLoopOpt_eq runes (i + 1)
        rw [escLoop_invalid_step runes i hdet.2.1 hdet.1 hdet.2.2 hwf]
        rw [escLoopOpt, dif_pos h, List.get?_eq_get h]
        show (if _ ∧ _ ∧ _ then _ else _) = _
        rw [if_pos (by rw [get_eq_getD]; exact hdet), if_neg hwf, ih]
        rfl
    · have ih := escLoopOpt_eq runes (i + 1)
      rw [escLoop_ord_step runes i h hdet]
      rw [escLoopOpt, dif_pos h, List.get?_eq_get h]
      show (if _ ∧ _ ∧ _ then _ else _) = _
      rw [if_neg (by rw [get_eq_getD]; exact hdet), ih]
      rw [get_eq_getD]
      rfl
  · rw [escLoop_stop runes i (by omega), escLoopOpt, dif_neg h]
termination_by runes.length - i
decreasing_by
  · omega
  · omega
  · omega

/-- C1 (counterexample): on the input ESC `[` `b` `a` `!` `d` the scanner does
NOT replace the leading ESC with U+241B — `'b'` is a letter, so `ESC [ b` is
recognized as a well-formed CSI run and emitted verbatim. -/
theorem c1_counterexample :
    ¬(EscapePreservingANSI [0x1B, 0x5B, 0x62, 0x61, 0x21, 0x64] =
      [0x241B, 0x5B, 0x62, 0x61, 0x21, 0x64]) := by
  rw [escANSI_bad_example_eval]
  decide

/-- C1 (amended): for the six code points ESC `[` `b` `a` `!` `d`,
`EscapePreservingANSI` returns the input unchanged: `ESC [ b` forms a
well-formed CSI run (empty parameter run, terminator `'b'`) that is emitted
verbatim, and the code points `a`, `!`, `d` pass through unchanged. -/
theorem c1_amended_wellformed_b :
    EscapePreservingANSI [0x1B, 0x5B, 0x62, 0x61, 0x21, 0x64] =
    [0x1B, 0x5B, 0x62, 0x61, 0x21, 0x64] :=
  escANSI_bad_example_eval

/-- C4: `Escape` maps each code point independently and in order via `pic`:
control characters 0x00–0x1F become U+2400 + c, DEL (0x7F) becomes U+2421,
every other code point is unchanged; consequently `Escape` is the identity
on inputs with no control characters and no DEL. -/
theorem c4_escape_pointwise :
    (∀ c : Nat, c ≤ 0x1F → pic c = 0x2400 + c) ∧
    (pic 0x7F = 0x2421) ∧
    (∀ c : Nat, 0x1F < c → c ≠ 0x7F → pic c = c) ∧
    (∀ s : List Nat, Escape s = s.map pic) ∧
    (∀ s : List Nat, (∀ c ∈ s, 0x1F < c ∧ c ≠ 0x7F) → Escape s = s) := by
  have hid : ∀ c : Nat, 0x1F < c → c ≠ 0x7F → pic c = c := by
    intro c h1 h2
    rw [pic, if_neg (by omega), if_neg (by rw [DEL]; exact h2)]
  refine ⟨fun c hc => by rw [pic, if_pos hc], by decide, hid, fun s => rfl, ?_⟩
  intro s hs
  induction s with
  | nil => rfl
  | cons a t ih =>
    have ha := hs a (List.mem_cons_self a t)
    rw [Escape, List.map_cons, hid a ha.1 ha.2]
    have ht := ih (fun c hc => hs c (List.mem_cons_of_mem a hc))
    rw [Escape] at ht
    rw [ht]

/-- C4 witness: the pointwise clauses at concrete code points and the
identity clause on a concrete control-free string. -/
theorem c4_escape_pointwise_witness :
    pic 0x05 = 0x2405 ∧ pic 0x41 = 0x41 ∧ Escape [0x41, 0x2400] = [0x41, 0x2400] :=
  ⟨c4_escape_pointwise.1 0x05 (by decide),
   c4_escape_pointwise.2.2.1 0x41 (by decide) (by decide),
   c4_escape_pointwise.2.2.2.2 [0x41, 0x2400] (by decide)⟩

/-- C5: `Escape` preserves the code-point count exactly, and
`EscapePreservingANSI` produces at least as many code points as the input —
in fact exactly as many: every step emits as many code points as it
consumes. -/
theorem c5_length_preservation :
    (∀ s : List Nat, (Escape s).length = s.length) ∧
    (∀ s : List Nat, s.length ≤ (EscapePreservingANSI s).length) ∧
    (∀ s : List Nat, (EscapePreservingANSI s).length = s.length) := by
  have hE : ∀ s : List Nat, (EscapePreservingANSI s).length = s.length := by
    intro s
    rw [EscapePreservingANSI, escLoop_length]
    omega
  exact ⟨fun s => List.length_map s pic, fun s => (hE s).ge, hE⟩

/-- C9: the output of `Escape` never contains a control character: no output
code point lies in [0x00, 0x1F] and none equals 0x7F. -/
theorem c9_escape_no_control :
    ∀ (s : List Nat) (c : Nat), c ∈ Escape s → ¬(c ≤ 0x1F) ∧ c ≠ 0x7F := by
  intro s c hc
  rw [Escape, List.mem_map] at hc
  obtain ⟨a, _, rfl⟩ := hc
  by_cases h1 : a ≤ 0x1F
  · rw [pic, if_pos h1]
    constructor <;> omega
  · by_cases h2 : a = DEL
    · rw [pic, if_neg h1, if_pos h2]
      decide
    · rw [pic, if_neg h1, if_neg h2]
      exact ⟨h1, fun hc' => h2 (by rw [DEL]; exact hc')⟩

/-- C9 witness: the image of the NUL-containing string `[0x00]` under
`Escape` consists of `U+2400`, which is not a control character. -/
theorem c9_escape_no_control_witness :
    ¬((0x2400 : Nat) ≤ 0x1F) ∧ (0x2400 : Nat) ≠ 0x7F :=
  c9_escape_no_control [0x00] 0x2400 (by decide)

/-- C10: on any input containing no ESC code point, `EscapePreservingANSI`
agrees with `Escape`: no escape-sequence start is ever detected, so every
step takes the ordinary substitution path. -/
theorem c10_agree_without_esc :
    ∀ s : List Nat, 0x1B ∉ s → EscapePreservingANSI s = Escape s := by
  intro s hs
  rw [EscapePreservingANSI, escLoop_no_esc s 0 hs, List.drop_zero, Escape]

/-- C10 witness: the two entry points agree on the ESC-free string
`[0x61, 0x00, 0x62]`. -/
theorem c10_agree_without_esc_witness :
    EscapePreservingANSI [0x61, 0x00, 0x62] = Escape [0x61, 0x00, 0x62] :=
  c10_agree_without_esc [0x61, 0x00, 0x62] (by decide)

/-- C2: whenever the input holds a well-formed CSI run at position `i` —
ESC, then `[`, then parameter characters up to (excluding) position `j`,
then a letter terminator at `j` — the scanner emits the whole run
`runes[i..j]` verbatim and continues just past the terminator; in
particular the code points of `"\x1b[1;31mERROR\x1b[0m"` pass through
unchanged. -/
theorem c2_wellformed_passthrough :
    (∀ (runes : List Nat) (i j : Nat),
      i + 1 < runes.length →
      runes.getD i 0 = 0x1B →
      runes.getD (i + 1) 0 = 0x5B →
      i + 2 ≤ j → j < runes.length →
      (∀ k, i + 2 ≤ k → k < j → isParam (runes.getD k 0) = true) →
      isLetter (runes.getD j 0) = true →
      escLoop runes i =
        (runes.drop i).take (j + 1 - i) ++ escLoop runes (j + 1)) ∧
    EscapePreservingANSI
        [0x1B, 0x5B, 0x31, 0x3B, 0x33, 0x31, 0x6D, 0x45, 0x52, 0x52, 0x4F,
         0x52, 0x1B, 0x5B, 0x30, 0x6D] =
      [0x1B, 0x5B, 0x31, 0x3B, 0x33, 0x31, 0x6D, 0x45, 0x52, 0x52, 0x4F,
       0x52, 0x1B, 0x5B, 0x30, 0x6D] := by
  constructor
  · intro runes i j h1 h27 h91 hij hj hP hL
    have hscan : scanSeq runes (i + 2) = j :=
      scanSeq_stops runes (i + 2) j hij hj hL hP
    rw [escLoop_wf_step runes i h1 h27 h91 (by rw [hscan]; exact hj)
      (by rw [hscan]; exact hL), hscan]
  · set_option maxHeartbeats 1000000 in
    simp +decide [EscapePreservingANSI, escLoop, scanSeq, isLetter, isParam, pic]

/-- C2 witness: the general clause applied at the start of the concrete
run ESC `[` `1` `;` `3` `1` `m`, whose terminator sits at position 6. -/
theorem c2_wellformed_passthrough_witness :
    escLoop [0x1B, 0x5B, 0x31, 0x3B, 0x33, 0x31, 0x6D] 0 =
      (([0x1B, 0x5B, 0x31, 0x3B, 0x33, 0x31, 0x6D] : List Nat).drop 0).take 7 ++
        escLoop [0x1B, 0x5B, 0x31, 0x3B, 0x33, 0x31, 0x6D] 7 := by
  refine c2_wellformed_passthrough.1
    [0x1B, 0x5B, 0x31, 0x3B, 0x33, 0x31, 0x6D] 0 6
    (by decide) (by decide) (by decide) (by decide) (by decide) ?_ (by decide)
  intro k hk1 hk2
  interval_cases k <;> decide

/-- C3: when an ESC `[` attempt at position `i` is invalid or truncated —
the parameter scan stops at end of input or at a non-terminator — the
scanner emits U+241B in place of the ESC alone and resumes at `i + 1`, so
the `[` and any tentatively scanned characters are reprocessed, none
dropped; in particular the code points of `"x\x1b[31"` give `x ␛ [ 3 1`. -/
theorem c3_invalid_escape_esc_only :
    (∀ (runes : List Nat) (i : Nat),
      i + 1 < runes.length →
      runes.getD i 0 = 0x1B →
      runes.getD (i + 1) 0 = 0x5B →
      (runes.length ≤ scanSeq runes (i + 2) ∨
        isLetter (runes.getD (scanSeq runes (i + 2)) 0) = false) →
      escLoop runes i = 0x241B :: escLoop runes (i + 1)) ∧
    EscapePreservingANSI [0x78, 0x1B, 0x5B, 0x33, 0x31] =
      [0x78, 0x241B, 0x5B, 0x33, 0x31] := by
  constructor
  · intro runes i h1 h27 h91 hbad
    apply escLoop_invalid_step runes i h1 h27 h91
    intro hc
    rcases hbad with hb | hb
    · omega
    · exact absurd (hb ▸ hc.2) (by decide)
  · set_option maxHeartbeats 1000000 in
    simp +decide [EscapePreservingANSI, escLoop, scanSeq, isLetter, isParam, pic]

/-- C3 witness: the general clause applied at the ESC of the code points of
`"x\x1b[31"`, whose parameter scan runs off the end of the input. -/
theorem c3_invalid_escape_esc_only_witness :
    escLoop [0x78, 0x1B, 0x5B, 0x33, 0x31] 1 =
      0x241B :: escLoop [0x78, 0x1B, 0x5B, 0x33, 0x31] 2 :=
  c3_invalid_escape_esc_only.1 [0x78, 0x1B, 0x5B, 0x33, 0x31] 1
    (by decide) (by decide) (by decide)
    (Or.inl (by simp +decide [scanSeq, isLetter, isParam]))

/-- C6: an ESC not immediately followed by `[` (including an ESC that ends
the input) is handled by the ordinary substitution path, which replaces it
with `pic 0x1B = U+241B` and advances by one; in particular the code points
of `"a\x1bb"` give `a ␛ b`. -/
theorem c6_lone_esc :
    (pic 0x1B = 0x241B) ∧
    (∀ (runes : List Nat) (i : Nat),
      i < runes.length →
      runes.getD i 0 = 0x1B →
      (runes.length ≤ i + 1 ∨ runes.getD (i + 1) 0 ≠ 0x5B) →
      escLoop runes i = pic 0x1B :: escLoop runes (i + 1)) ∧
    EscapePreservingANSI [0x61, 0x1B, 0x62] = [0x61, 0x241B, 0x62] := by
  refine ⟨by decide, ?_, ?_⟩
  · intro runes i h h27 hno
    rw [escLoop_ord_step runes i h ?_, h27]
    intro hc
    rcases hno with hb | hb
    · omega
    · exact hb hc.2.2
  · simp [EscapePreservingANSI, escLoop, scanSeq, isLetter, isParam, pic]
    decide

/-- C6 witness: the general clause applied at the lone ESC of the code
points of `"a\x1bb"` (the next code point is `'b'`, not `'['`). -/
theorem c6_lone_esc_witness :
    escLoop [0x61, 0x1B, 0x62] 1 = pic 0x1B :: escLoop [0x61, 0x1B, 0x62] 2 :=
  c6_lone_esc.2.1 [0x61, 0x1B, 0x62] 1 (by decide) (by decide)
    (Or.inr (by decide))

/-- C7: the scanner terminates on every finite input: the inner scan never
moves the stop position left of its start (so the well-formed path advances
the cursor by the full matched length, at least 3, and the other paths by
exactly 1), and a fuel budget of one iteration per remaining code point
suffices for the structurally recursive `escLoopF` to compute `escLoop` —
in particular `runes.length` iterations compute `EscapePreservingANSI`. -/
theorem c7_terminates :
    (∀ (runes : List Nat) (i : Nat), i + 2 ≤ scanSeq runes (i + 2)) ∧
    (∀ (fuel : Nat) (runes : List Nat) (i : Nat),
      runes.length ≤ i + fuel → escLoopF fuel runes i = escLoop runes i) ∧
    (∀ runes : List Nat, escLoopF runes.length runes 0 = EscapePreservingANSI runes) := by
  refine ⟨fun runes i => scanSeq_ge runes (i + 2), escLoopF_eq, fun runes => ?_⟩
  rw [EscapePreservingANSI, escLoopF_eq runes.length runes 0 (by omega)]

/-- C7 witness: a fuel budget of 3 computes the scanner on the two-code-point
input `[0x61, 0x1B]`. -/
theorem c7_terminates_witness :
    escLoopF 3 [0x61, 0x1B] 0 = escLoop [0x61, 0x1B] 0 :=
  c7_terminates.2.1 3 [0x61, 0x1B] 0 (by decide)

/-- C8: both entry points are total over every finite code-point sequence
with no failure path: the fallible mirror `escLoopOpt`, in which every
indexing operation may fail, never returns `none` — the error branch is
unreachable — and both functions map the empty input to the empty output. -/
theorem c8_totality :
    (∀ (runes : List Nat) (i : Nat), escLoopOpt runes i = some (escLoop runes i)) ∧
    (∀ s : List Nat, escLoopOpt s 0 = some (EscapePreservingANSI s)) ∧
    Escape [] = [] ∧
    EscapePreservingANSI [] = [] := by
  refine ⟨escLoopOpt_eq, fun s => escLoopOpt_eq s 0, rfl, ?_⟩
  rw [EscapePreservingANSI, escLoop_stop [] 0 (Nat.le_refl 0)]
